/-
Verification of the kdex-tech/entitlements policy-matching engine
(entitlements/entitlements.go) against its natural-language specification.

The Go data types are embedded as follows:
  * `Entitlements  = map[string][]string`  becomes an association list
    `List (String × List String)` (Go maps have unique keys; iteration
    order never influences the boolean results modelled here).
  * `Requirements  = []map[string][]string` becomes `List ReqEntry`.
  * The receiver struct `EntitlementsChecker` becomes a structure with the
    same three configuration fields.
Pure Go functions become Lean functions with the same structure; the
deep-clone helpers are the identity on immutable Lean values, so the
clone steps of the source vanish in this value-level model (`GoNil`
below re-introduces the nil/non-nil map distinction where it matters).
-/
import Mathlib

set_option linter.unusedVariables false

namespace Entitlements

/-- Association-list embedding of Go's `map[string][]string`. -/
abbrev EntMap := List (String × List String)

/-- One requirement-set entry: `map[string][]string`. -/
abbrev ReqEntry := List (String × List String)

/-- `Requirements = []map[string][]string`. -/
abbrev ReqList := List ReqEntry

/-- The `EntitlementsChecker` struct: anonymousEntitlements,
defaultScheme, grantReadyByDefault (entitlements.go lines 28-32). -/
structure EntitlementsChecker where
  anonymousEntitlements : List String
  defaultScheme : String
  grantReadyByDefault : Bool
deriving DecidableEq, Repr

/-- `NewEntitlementsChecker` (entitlements.go lines 40-53): an empty
default scheme falls back to `"bearer"`. -/
def NewEntitlementsChecker (anonymousEntitlements : List String)
    (defaultScheme : String) (grantReadyByDefault : Bool) : EntitlementsChecker :=
  { anonymousEntitlements := anonymousEntitlements
    defaultScheme := if defaultScheme = "" then "bearer" else defaultScheme
    grantReadyByDefault := grantReadyByDefault }

/-- Helper for `splitColon`: walk the character list, cutting at every
`':'`; `acc` holds the reversed characters of the current field. -/
def splitColonAux : List Char → List Char → List (List Char)
  | [], acc => [acc.reverse]
  | c :: cs, acc =>
    if c = ':' then acc.reverse :: splitColonAux cs []
    else splitColonAux cs (c :: acc)

/-- Go's `strings.Split(s, ":")` (entitlements.go lines 182 and 189):
the separator is the single byte `':'`, which in UTF-8 never occurs
inside a multi-byte sequence, so splitting the character list at every
`':'` is an exact model.  `strings.Split("", ":") = [""]`. -/
def splitColon (s : String) : List String :=
  (splitColonAux s.data []).map fun cs => ⟨cs⟩

/-- The in-place canonicalization of a 2-field colon split
(entitlements.go lines 184-187 and 191-194):
`[resource, verb]` becomes `[resource, "", verb]`; every other shape is
left untouched. -/
def expandShort : List String → List String
  | [resource, verb] => [resource, "", verb]
  | parts => parts

/-- `entitlementMatches` (entitlements.go lines 175-225): exact-equality
fast path, colon-split canonicalization of both sides, then the
resource-type, verb and resource-name checks in source order.  The Go
method ignores its receiver, so the embedding drops it. -/
def entitlementMatches (entitlement requirement : String) : Bool :=
  if entitlement = requirement then true
  else
    match expandShort (splitColon entitlement) with
    | [p0, p1, p2] =>
      match expandShort (splitColon requirement) with
      | [q0, q1, q2] =>
        if p0 ≠ q0 then false
        else if p2 ≠ "all" ∧ p2 ≠ q2 then false
        else if p1 = "" ∨ p1 = "*" then true
        else if q1 = "" ∨ q1 = "*" then true
        else p1 = q1
      | _ => false
    | _ => false

/-- `hasEntitlement` (entitlements.go lines 165-172). -/
def hasEntitlement (entitlements : List String) (requirement : String) : Bool :=
  entitlements.any fun entitlement => entitlementMatches entitlement requirement

/-- `satisfiesRequirement` (entitlements.go lines 154-162). -/
def satisfiesRequirement (entitlements : List String) (requirement : List String) : Bool :=
  requirement.all fun curRequirement => hasEntitlement entitlements curRequirement

/-- `satisfiesAndRequirements` (entitlements.go lines 137-150): every
scheme key of the entry must be present in the entitlements map and its
required list satisfied. -/
def satisfiesAndRequirements (entitlements : EntMap) (requirement : ReqEntry) : Bool :=
  requirement.all fun p =>
    match entitlements.lookup p.1 with
    | none => false
    | some entitlementList => satisfiesRequirement entitlementList p.2

/-- `m[k] = append(m[k], vs...)` on a Go map: extend the list stored
under `k`, creating the key when absent (the write pattern of
entitlements.go lines 78, 87 and 123). -/
def appendUnder (m : EntMap) (k : String) (vs : List String) : EntMap :=
  if (m.lookup k).isSome then
    m.map fun p => if p.1 = k then (p.1, p.2 ++ vs) else p
  else
    m ++ [(k, vs)]

/-- The inner anonymous-entitlement pass of entitlements.go lines
113-119 on one scheme's list: fold over the configured anonymous
entitlements, appending each one that is not already contained in the
(growing) list; the flag records whether anything was appended. -/
def appendMissing (anons : List String) (l : List String) : List String × Bool :=
  anons.foldl
    (fun acc a => if acc.1.contains a then acc else (acc.1 ++ [a], true))
    (l, false)

/-- The anonymous-entitlement augmentation of `VerifyEntitlements`
(entitlements.go lines 111-124), run on the working copy when the
configured anonymous list is non-empty: the loop only ever touches the
default-scheme entry; when nothing was appended (`added == false`) the
whole anonymous list is appended under the default-scheme key. -/
def augmentAnonymous (ec : EntitlementsChecker) (entitlements : EntMap) : EntMap :=
  let processed := entitlements.map fun p =>
    if p.1 = ec.defaultScheme then (p.1, (appendMissing ec.anonymousEntitlements p.2).1)
    else p
  let added := entitlements.any fun p =>
    p.1 == ec.defaultScheme && (appendMissing ec.anonymousEntitlements p.2).2
  if added then processed
  else appendUnder processed ec.defaultScheme ec.anonymousEntitlements

/-- `VerifyEntitlements` (entitlements.go lines 97-135): empty
requirements grant access; otherwise the working copy is augmented with
the anonymous entitlements (when configured) and the entries are OR'd. -/
def VerifyEntitlements (ec : EntitlementsChecker)
    (entitlements : EntMap) (requirements : ReqList) : Bool :=
  if requirements.length = 0 then true
  else
    let entitlements :=
      if ec.anonymousEntitlements.length > 0 then augmentAnonymous ec entitlements
      else entitlements
    requirements.any fun requirement => satisfiesAndRequirements entitlements requirement

/-- `VerifyResourceEntitlements` (entitlements.go lines 59-91):
synthesize the identity requirement `resource:resourceName:read`, add it
to every requirement entry (or create a single default-scheme entry when
there are none), optionally grant the identity entitlement, then
delegate. -/
def VerifyResourceEntitlements (ec : EntitlementsChecker)
    (resource resourceName : String)
    (entitlements : EntMap) (requirements : ReqList) : Bool :=
  let identity := resource ++ ":" ++ resourceName ++ ":read"
  let requirements :=
    if requirements.length = 0 then
      requirements ++ [[(ec.defaultScheme, [identity])]]
    else
      requirements.map fun req => appendUnder req ec.defaultScheme [identity]
  let entitlements :=
    if ec.grantReadyByDefault then appendUnder entitlements ec.defaultScheme [identity]
    else entitlements
  VerifyEntitlements ec entitlements requirements

/-! ### Specification-side vocabulary

Predicates and transforms stated in the words of the specification, to
be compared with the functions translated from the source. -/

/-- Spec §4.1 step 4: a requirement-set entry is satisfied exactly when,
for every scheme key present in the entry, the entitlements mapping
contains that key and every required string listed under that key is
matched (via the matching rule) by at least one held entitlement string
under the same key. -/
def EntrySatisfied (entitlements : EntMap) (entry : ReqEntry) : Prop :=
  ∀ p ∈ entry, ∃ held, entitlements.lookup p.1 = some held ∧
    ∀ r ∈ p.2, ∃ e ∈ held, entitlementMatches e r = true

/-- Spec §4.1 matching rule, step 4 (verb): held's verb is the literal
`"all"`, or the two verbs are exactly equal. -/
def VerbRule (heldVerb requiredVerb : String) : Prop :=
  heldVerb = "all" ∨ heldVerb = requiredVerb

/-- Spec §4.1 matching rule, step 5 (resource name): held's name field
is empty or `"*"`, or required's name field is empty or `"*"`, or the
two name fields are exactly equal. -/
def NameRule (heldName requiredName : String) : Prop :=
  heldName = "" ∨ heldName = "*" ∨ requiredName = "" ∨ requiredName = "*" ∨
    heldName = requiredName

/-- The synthesized identity string `resource:resourceName:read` of spec
§4.1 (`verifyResourceEntitlements`). -/
def identityFor (resource resourceName : String) : String :=
  resource ++ ":" ++ resourceName ++ ":read"

/-- Spec §4.1 `verifyResourceEntitlements` step 1, stated from the
spec's words: the identity string is appended under the default-scheme
key to every entry of the requirements list, or, when the list is
empty, the list is replaced by the single entry
`{defaultScheme: [identity]}`. -/
def specReqTransform (ec : EntitlementsChecker)
    (resource resourceName : String) (requirements : ReqList) : ReqList :=
  if requirements = [] then [[(ec.defaultScheme, [identityFor resource resourceName])]]
  else requirements.map fun entry =>
    appendUnder entry ec.defaultScheme [identityFor resource resourceName]

/-- Spec §4.1 `verifyResourceEntitlements` step 2, stated from the
spec's words: exactly when the grant-read-by-default flag is set, the
identity string is appended under the default-scheme key of the
entitlements mapping (creating that key if absent). -/
def specEntTransform (ec : EntitlementsChecker)
    (resource resourceName : String) (entitlements : EntMap) : EntMap :=
  if ec.grantReadyByDefault then
    appendUnder entitlements ec.defaultScheme [identityFor resource resourceName]
  else entitlements

/-- Append to `l` each element of `anons`, in order, skipping any
element already present in the list built so far (spec-side description
of the deduplicating pass of entitlements.go lines 113-119). -/
def dedupAppend (l : List String) (anons : List String) : List String :=
  anons.foldl (fun acc a => if a ∈ acc then acc else acc ++ [a]) l

/-! ### Nil-aware model

Go distinguishes a `nil` map from an empty one: reading from a `nil`
map yields zero values, but writing (`m[k] = v`) panics with
"assignment to entry in nil map", and `deepCloneEntitlements` /
`deepCloneRequirements` (entitlements.go lines 227-248 and 250-280)
deliberately map `nil` to `nil`, so the clones can still be `nil` when
the caller's inputs were.  The `GoNil` namespace re-embeds the two
public operations at this fidelity: `Option` wraps each map (`none` =
Go `nil`), and the result type `Option Bool` is `none` exactly when the
Go code panics. -/

namespace GoNil

/-- A possibly-nil `map[string][]string`; `none` is Go's `nil` map. -/
abbrev EntMapN := Option EntMap

/-- Reading `m[k]` with the comma-ok form: a `nil` map simply reports
the key as absent. -/
def lookupN : EntMapN → String → Option (List String)
  | none, _ => none
  | some m, k => m.lookup k

/-- `satisfiesAndRequirements` against a possibly-nil entitlements map
(map reads never panic). -/
def satisfiesAndRequirementsN (entitlements : EntMapN) (requirement : ReqEntry) : Bool :=
  requirement.all fun p =>
    match lookupN entitlements p.1 with
    | none => false
    | some entitlementList => satisfiesRequirement entitlementList p.2

/-- `VerifyEntitlements` (entitlements.go lines 97-135) with Go's nil
semantics.  When the anonymous list is non-empty and the (cloned, still
nil) entitlements map is `nil`, the range loop at lines 112-120 runs
zero iterations, `added` stays false, and the write
`entitlements[ec.defaultScheme] = append(...)` at line 123 panics:
result `none`.  A `nil` requirement entry is ranged over without panic
and is trivially satisfied. -/
def VerifyEntitlementsN (ec : EntitlementsChecker)
    (entitlements : EntMapN) (requirements : List (Option ReqEntry)) : Option Bool :=
  if requirements.length = 0 then some true
  else if ec.anonymousEntitlements.length > 0 then
    match entitlements with
    | none => none
    | some m =>
      some (requirements.any fun requirement =>
        satisfiesAndRequirementsN (some (augmentAnonymous ec m)) (requirement.getD []))
  else
    some (requirements.any fun requirement =>
      satisfiesAndRequirementsN entitlements (requirement.getD []))

/-- `VerifyResourceEntitlements` (entitlements.go lines 59-91) with
Go's nil semantics: `deepCloneRequirements` keeps `nil` entries `nil`,
so the write `req[ec.defaultScheme] = append(...)` at line 78 panics on
a `nil` entry, and the write `entitlements[ec.defaultScheme] =
append(...)` at line 87 panics when the flag is set and the cloned
entitlements map is `nil`. -/
def VerifyResourceEntitlementsN (ec : EntitlementsChecker)
    (resource resourceName : String)
    (entitlements : EntMapN) (requirements : List (Option ReqEntry)) : Option Bool :=
  let identity := resource ++ ":" ++ resourceName ++ ":read"
  let requirementsStep : Option (List (Option ReqEntry)) :=
    if requirements.length = 0 then
      some (requirements ++ [some [(ec.defaultScheme, [identity])]])
    else if requirements.any fun r => r.isNone then none
    else some (requirements.map fun r => some (appendUnder (r.getD []) ec.defaultScheme [identity]))
  match requirementsStep with
  | none => none
  | some requirements =>
    let entitlementsStep : Option EntMapN :=
      if ec.grantReadyByDefault then
        match entitlements with
        | none => none
        | some m => some (some (appendUnder m ec.defaultScheme [identity]))
      else some entitlements
    match entitlementsStep with
    | none => none
    | some entitlements => VerifyEntitlementsN ec entitlements requirements

end GoNil

/-! ### Association-list lemmas -/

theorem lookup_cons_ite (k a : String) (b : List String) (t : EntMap) :
    ((a, b) :: t).lookup k = if k = a then some b else t.lookup k := by
  rw [List.lookup_cons]
  by_cases h : k = a
  · simp [h]
  · simp [beq_false_of_ne h, h]

theorem lookup_append_or (l₁ l₂ : EntMap) (k : String) :
    (l₁ ++ l₂).lookup k = (l₁.lookup k).or (l₂.lookup k) := by
  induction l₁ with
  | nil => simp [List.lookup]
  | cons p t ih =>
    obtain ⟨a, b⟩ := p
    rw [List.cons_append, lookup_cons_ite, lookup_cons_ite]
    by_cases h : k = a <;> simp [h, ih]

theorem lookup_map_entryUpdate (d : String) (g : List String → List String)
    (m : EntMap) (k : String) :
    (m.map fun p => if p.1 = d then (p.1, g p.2) else p).lookup k
      = (m.lookup k).map fun l => if k = d then g l else l := by
  induction m with
  | nil => simp [List.lookup]
  | cons p t ih =>
    obtain ⟨a, b⟩ := p
    by_cases had : a = d
    · subst had
      rw [List.map_cons, if_pos rfl, lookup_cons_ite, lookup_cons_ite]
      by_cases hka : k = a
      · subst hka; simp
      · simp [hka, ih]
    · rw [List.map_cons, if_neg had, lookup_cons_ite, lookup_cons_ite]
      by_cases hka : k = a
      · subst hka; simp [had]
      · simp [hka, ih]

theorem lookup_appendUnder (m : EntMap) (k : String) (vs : List String) (q : String) :
    (appendUnder m k vs).lookup q
      = if q = k then some (((m.lookup k).getD []) ++ vs) else m.lookup q := by
  unfold appendUnder
  by_cases hk : (m.lookup k).isSome
  · rw [if_pos hk, lookup_map_entryUpdate k (fun l => l ++ vs)]
    obtain ⟨l, hl⟩ := Option.isSome_iff_exists.mp hk
    by_cases hq : q = k
    · subst hq; simp [hl]
    · simp only [if_neg hq]
      cases m.lookup q <;> simp
  · rw [if_neg hk, lookup_append_or]
    have hnone : m.lookup k = none := Option.not_isSome_iff_eq_none.mp hk
    by_cases hq : q = k
    · subst hq; simp [hnone, List.lookup]
    · rw [if_neg hq]
      simp [List.lookup, beq_false_of_ne hq]

theorem lookup_augmentAnonymous_isSome (ec : EntitlementsChecker) (m : EntMap)
    (q : String) (h : (m.lookup q).isSome = true) :
    ((augmentAnonymous ec m).lookup q).isSome = true := by
  unfold augmentAnonymous
  by_cases hadd :
      (m.any fun p =>
        p.1 == ec.defaultScheme && (appendMissing ec.anonymousEntitlements p.2).2) = true
  · rw [if_pos hadd,
      lookup_map_entryUpdate ec.defaultScheme
        (fun l => (appendMissing ec.anonymousEntitlements l).1)]
    simpa using h
  · rw [if_neg hadd, lookup_appendUnder]
    by_cases hq : q = ec.defaultScheme
    · simp [hq]
    · rw [if_neg hq,
        lookup_map_entryUpdate ec.defaultScheme
          (fun l => (appendMissing ec.anonymousEntitlements l).1)]
      simpa using h

theorem expandShort_of_length_ne_two (l : List String) (h : l.length ≠ 2) :
    expandShort l = l := by
  match l with
  | [] => rfl
  | [x] => rfl
  | [x, y] => exact absurd rfl h
  | x :: y :: z :: t => rfl

theorem appendMissing_general (anons : List String) (l : List String) (b : Bool) :
    anons.foldl (fun acc a => if acc.1.contains a then acc else (acc.1 ++ [a], true)) (l, b)
      = (dedupAppend l anons, b || decide (∃ a ∈ anons, a ∉ l)) := by
  induction anons generalizing l b with
  | nil => simp [dedupAppend]
  | cons a rest ih =>
    rw [List.foldl_cons]
    by_cases h : a ∈ l
    · have hc : l.contains a = true := by simpa using h
      rw [if_pos (by simpa using h), ih l b]
      have hded : dedupAppend l (a :: rest) = dedupAppend l rest := by
        unfold dedupAppend
        rw [List.foldl_cons, if_pos h]
      rw [hded]
      simp [List.exists_mem_cons_iff, h]
    · rw [if_neg (by simpa using h), ih (l ++ [a]) true]
      have hded : dedupAppend l (a :: rest) = dedupAppend (l ++ [a]) rest := by
        unfold dedupAppend
        rw [List.foldl_cons, if_neg h]
      rw [hded]
      have hex : ∃ x ∈ a :: rest, x ∉ l := ⟨a, List.mem_cons_self a rest, h⟩
      simp [hex]
      exact Or.inr (Or.inl h)

theorem appendMissing_eq (anons l : List String) :
    appendMissing anons l = (dedupAppend l anons, decide (∃ a ∈ anons, a ∉ l)) := by
  unfold appendMissing
  rw [appendMissing_general anons l false]
  simp

theorem dedupAppend_of_forall_mem (anons l : List String)
    (h : ∀ a ∈ anons, a ∈ l) : dedupAppend l anons = l := by
  induction anons with
  | nil => rfl
  | cons a rest ih =>
    unfold dedupAppend
    rw [List.foldl_cons, if_pos (h a (List.mem_cons_self a rest))]
    exact ih fun x hx => h x (List.mem_cons_of_mem a hx)

theorem any_keyGuard_eq_false (m : EntMap) (d : String) (f : List String → Bool)
    (hd : ∀ p ∈ m, p.1 ≠ d) :
    (m.any fun p => p.1 == d && f p.2) = false := by
  induction m with
  | nil => rfl
  | cons p t ih =>
    rw [List.any_cons]
    have h1 : p.1 ≠ d := hd p (List.mem_cons_self p t)
    simp [beq_false_of_ne h1, ih fun q hq => hd q (List.mem_cons_of_mem p hq)]

theorem lookup_none_forall (m : EntMap) (d : String) (h : m.lookup d = none) :
    ∀ p ∈ m, p.1 ≠ d := by
  induction m with
  | nil => intro p hp; cases hp
  | cons q t ih =>
    obtain ⟨a, b⟩ := q
    rw [lookup_cons_ite] at h
    by_cases hda : d = a
    · rw [if_pos hda] at h; cases h
    · rw [if_neg hda] at h
      intro p hp
      rcases List.mem_cons.mp hp with rfl | hp'
      · exact fun hc => hda hc.symm
      · exact ih h p hp'

theorem any_keyGuard_of_lookup (m : EntMap) (d : String) (l : List String)
    (f : List String → Bool)
    (hnd : (m.map Prod.fst).Nodup) (hl : m.lookup d = some l) :
    (m.any fun p => p.1 == d && f p.2) = f l := by
  induction m with
  | nil => cases hl
  | cons q t ih =>
    obtain ⟨a, b⟩ := q
    rw [List.any_cons]
    rw [lookup_cons_ite] at hl
    rw [List.map_cons, List.nodup_cons] at hnd
    obtain ⟨hna, hnt⟩ := hnd
    by_cases hda : d = a
    · rw [if_pos hda] at hl
      injection hl with hbl
      subst hbl
      subst hda
      have ht : ∀ p ∈ t, p.1 ≠ d := by
        intro p hp hc
        have hmem : p.1 ∈ t.map Prod.fst := List.mem_map_of_mem Prod.fst hp
        rw [hc] at hmem
        exact hna hmem
      rw [any_keyGuard_eq_false t d f ht]
      simp
    · rw [if_neg hda] at hl
      rw [ih hnt hl]
      simp [beq_false_of_ne fun hc : a = d => hda hc.symm]

theorem satisfiesAndRequirements_eq_true_iff (M : EntMap) (entry : ReqEntry) :
    satisfiesAndRequirements M entry = true ↔ EntrySatisfied M entry := by
  unfold satisfiesAndRequirements EntrySatisfied
  rw [List.all_eq_true]
  refine forall₂_congr fun p hp => ?_
  cases h : M.lookup p.1 with
  | none => simp [h]
  | some l =>
    simp [h, satisfiesRequirement, hasEntitlement, List.all_eq_true, List.any_eq_true]

/-! ### Claims -/

/-- C1: `VerifyEntitlements` returns `true` on an empty requirements
list, and otherwise returns `true` iff some requirement-set entry is
fully satisfied: for every scheme key present in the entry, the
entitlements mapping contains that key and every required string under
it is matched by at least one held entitlement string under the same
key; an entry naming an absent scheme fails, and `false` comes back
only when no entry succeeds.  (Stated for a checker with no configured
anonymous entitlements, so that the mapping consulted by the matching
step is the caller's own; the anonymous augmentation is claim C7's
subject.) -/
theorem verifyEntitlements_iff_exists_satisfied_entry
    (ec : EntitlementsChecker) (entitlements : EntMap) (requirements : ReqList)
    (hanon : ec.anonymousEntitlements = []) :
    VerifyEntitlements ec entitlements requirements = true ↔
      (requirements = [] ∨
        ∃ entry ∈ requirements, EntrySatisfied entitlements entry) := by
  unfold VerifyEntitlements
  rcases requirements with _ | ⟨e, rest⟩
  · simp
  · simp [hanon, List.any_eq_true, satisfiesAndRequirements_eq_true_iff]

theorem verifyEntitlements_iff_exists_satisfied_entry_witness :
    VerifyEntitlements ⟨[], "bearer", false⟩
      [("bearer", ["pages:all"])] [[("bearer", ["pages:/foo:read"])]] = true :=
  (verifyEntitlements_iff_exists_satisfied_entry ⟨[], "bearer", false⟩
      [("bearer", ["pages:all"])] [[("bearer", ["pages:/foo:read"])]] rfl).mpr
    (Or.inr ⟨[("bearer", ["pages:/foo:read"])], by simp, by
      intro p hp
      simp only [List.mem_singleton] at hp
      subst hp
      exact ⟨["pages:all"], rfl, by decide⟩⟩)

/-- C8: a requirement entry whose scheme key maps to an empty required
list is satisfied by the mere presence of that scheme key among the
held entitlements (even with an empty held list), and the entry fails
when the key is absent from the mapping it is checked against. -/
theorem presence_only_requirement
    (ec : EntitlementsChecker) (M : EntMap) (s : String)
    (hpresent : (M.lookup s).isSome = true)
    (M' : EntMap) (habsent : M'.lookup s = none) :
    VerifyEntitlements ec M [[(s, [])]] = true ∧
      satisfiesAndRequirements M' [(s, [])] = false := by
  constructor
  · unfold VerifyEntitlements
    rw [if_neg (by simp)]
    have hsome : ∀ M₀ : EntMap, (M₀.lookup s).isSome = true →
        satisfiesAndRequirements M₀ [(s, [])] = true := by
      intro M₀ h0
      obtain ⟨l, hl⟩ := Option.isSome_iff_exists.mp h0
      simp [satisfiesAndRequirements, hl, satisfiesRequirement]
    by_cases hanon : ec.anonymousEntitlements.length > 0
    · rw [if_pos hanon]
      simp only [List.any_cons, List.any_nil, Bool.or_false]
      exact hsome _ (lookup_augmentAnonymous_isSome ec M s hpresent)
    · rw [if_neg hanon]
      simp only [List.any_cons, List.any_nil, Bool.or_false]
      exact hsome _ hpresent
  · simp [satisfiesAndRequirements, habsent]

theorem presence_only_requirement_witness :
    VerifyEntitlements ⟨[], "bearer", false⟩ [("basic", [])] [[("basic", [])]] = true ∧
      satisfiesAndRequirements [] [("basic", [])] = false :=
  presence_only_requirement ⟨[], "bearer", false⟩ [("basic", [])] "basic"
    (by decide) [] rfl

/-- C10: a requirements list containing an entry with no scheme keys at
all makes `VerifyEntitlements` return `true` for every entitlements
mapping — the empty requirement-set entry grants access
unconditionally. -/
theorem verifyEntitlements_empty_entry_true
    (ec : EntitlementsChecker) (entitlements : EntMap) (requirements : ReqList)
    (h : ([] : ReqEntry) ∈ requirements) :
    VerifyEntitlements ec entitlements requirements = true := by
  unfold VerifyEntitlements
  rw [if_neg (by simp [List.length_eq_zero, List.ne_nil_of_mem h])]
  exact List.any_eq_true.mpr ⟨[], h, by simp [satisfiesAndRequirements]⟩

theorem entitlementMatches_structured
    (held required p0 p1 p2 q0 q1 q2 : String)
    (hh : expandShort (splitColon held) = [p0, p1, p2])
    (hr : expandShort (splitColon required) = [q0, q1, q2])
    (hne : held ≠ required) :
    entitlementMatches held required =
      (if p0 ≠ q0 then false
       else if p2 ≠ "all" ∧ p2 ≠ q2 then false
       else if p1 = "" ∨ p1 = "*" then true
       else if q1 = "" ∨ q1 = "*" then true
       else p1 = q1) := by
  unfold entitlementMatches
  rw [if_neg hne, hh, hr]

/-- C3: for held and required strings that both canonicalize to exactly
three colon-split fields, with equal resource-type fields and name
fields passing the name rule, the match succeeds exactly when held's
verb is the literal `"all"` or the two verbs are equal — so `r:n:all`
matches `r:n:v` for every verb `v`, while `r:n:read` does not match
`r:n:all`. -/
theorem entitlementMatches_verb_rule
    (held required a n₁ v₁ n₂ v₂ : String)
    (hh : expandShort (splitColon held) = [a, n₁, v₁])
    (hr : expandShort (splitColon required) = [a, n₂, v₂])
    (hn : NameRule n₁ n₂) :
    entitlementMatches held required = true ↔ VerbRule v₁ v₂ := by
  by_cases heq : held = required
  · subst heq
    rw [hh] at hr
    injection hr with h1 hr; injection hr with h2 hr; injection hr with h3 _
    subst h2; subst h3
    simp [entitlementMatches, VerbRule]
  · rw [entitlementMatches_structured held required a n₁ v₁ a n₂ v₂ hh hr heq]
    rw [if_neg (fun hc => hc rfl)]
    by_cases hv : VerbRule v₁ v₂
    · have hcond : ¬(v₁ ≠ "all" ∧ v₁ ≠ v₂) := by
        rcases hv with h | h <;> simp [h]
      rw [if_neg hcond]
      simp only [iff_true_intro hv, iff_true]
      rcases hn with h | h | h | h | h <;> simp [h]
    · rw [if_pos ⟨fun hc => hv (Or.inl hc), fun hc => hv (Or.inr hc)⟩]
      simp [hv]

theorem entitlementMatches_verb_rule_witness :
    entitlementMatches "pages:/foo:all" "pages:/foo:write" = true :=
  (entitlementMatches_verb_rule "pages:/foo:all" "pages:/foo:write"
      "pages" "/foo" "all" "/foo" "write" (by decide) (by decide)
      (Or.inr (Or.inr (Or.inr (Or.inr rfl))))).mpr (Or.inl rfl)

/-- C4: for held and required strings that both canonicalize to exactly
three colon-split fields, with equal resource-type fields and verb
fields passing the verb rule, the match succeeds exactly when held's
name field is `""` or `"*"`, or required's name field is `""` or `"*"`,
or the two name fields are equal — the resource-name wildcard works in
both directions. -/
theorem entitlementMatches_name_wildcard
    (held required a n₁ v₁ n₂ v₂ : String)
    (hh : expandShort (splitColon held) = [a, n₁, v₁])
    (hr : expandShort (splitColon required) = [a, n₂, v₂])
    (hv : VerbRule v₁ v₂) :
    entitlementMatches held required = true ↔ NameRule n₁ n₂ := by
  by_cases heq : held = required
  · subst heq
    rw [hh] at hr
    injection hr with h1 hr; injection hr with h2 hr; injection hr with h3 _
    subst h2; subst h3
    simp [entitlementMatches, NameRule]
  · rw [entitlementMatches_structured held required a n₁ v₁ a n₂ v₂ hh hr heq]
    rw [if_neg (fun hc => hc rfl)]
    have hcond : ¬(v₁ ≠ "all" ∧ v₁ ≠ v₂) := by
      rcases hv with h | h <;> simp [h]
    rw [if_neg hcond]
    unfold NameRule
    by_cases h1 : n₁ = "" <;> by_cases h2 : n₁ = "*" <;>
      by_cases h3 : n₂ = "" <;> by_cases h4 : n₂ = "*" <;>
      simp [h1, h2, h3, h4]

theorem entitlementMatches_name_wildcard_witness :
    entitlementMatches "pages::read" "pages:/bar:read" = true :=
  (entitlementMatches_name_wildcard "pages::read" "pages:/bar:read"
      "pages" "" "read" "/bar" "read" (by decide) (by decide)
      (Or.inr rfl)).mpr (Or.inl rfl)

/-- C5: when either string's colon split has a field count other than 2
or 3 (a single-field opaque token, or 4+ fields), `entitlementMatches`
returns `true` only on exact string equality; in particular `"books"`
does not match `"books:read"` and `"books:all"` does not match
`"books"`. -/
theorem entitlementMatches_opaque_exact_only
    (held required : String)
    (h : ((splitColon held).length ≠ 2 ∧ (splitColon held).length ≠ 3) ∨
         ((splitColon required).length ≠ 2 ∧ (splitColon required).length ≠ 3)) :
    entitlementMatches held required = true ↔ held = required := by
  by_cases heq : held = required
  · simp [entitlementMatches, heq]
  · unfold entitlementMatches
    rw [if_neg heq]
    simp only [iff_false_intro heq, iff_false, Bool.not_eq_true]
    rcases h with ⟨h2, h3⟩ | ⟨h2, h3⟩
    · rw [expandShort_of_length_ne_two _ h2]
      match hsp : splitColon held with
      | [] => rfl
      | [x] => rfl
      | [x, y] => simp [hsp] at h2
      | [x, y, z] => simp [hsp] at h3
      | x :: y :: z :: w :: t => rfl
    · rw [expandShort_of_length_ne_two _ h2]
      match expandShort (splitColon held) with
      | [] => rfl
      | [x] => rfl
      | [x, y] => rfl
      | x :: y :: z :: w :: t => rfl
      | [p0, p1, p2] =>
        match hsp : splitColon required with
        | [] => rfl
        | [x] => rfl
        | [x, y] => simp [hsp] at h2
        | [x, y, z] => simp [hsp] at h3
        | x :: y :: z :: w :: t => rfl

theorem entitlementMatches_opaque_exact_only_witness :
    entitlementMatches "books" "books:read" = false := by
  have h := entitlementMatches_opaque_exact_only "books" "books:read"
    (Or.inl (by decide))
  simpa using h

/-- C2: `VerifyResourceEntitlements resource resourceName entitlements
requirements` equals `VerifyEntitlements` applied to the transformed
inputs: the identity string `resource:resourceName:read` appended under
the default-scheme key to every requirements entry (or, for an empty
list, a single fresh entry `{defaultScheme: [identity]}`), and — exactly
when the grant-read-by-default flag is set — the identity string
appended under the default-scheme key of the entitlements mapping
(creating the key if absent).  Deep copies are the identity on the
immutable values of this model. -/
theorem verifyResourceEntitlements_eq_transformed
    (ec : EntitlementsChecker) (resource resourceName : String)
    (entitlements : EntMap) (requirements : ReqList) :
    VerifyResourceEntitlements ec resource resourceName entitlements requirements
      = VerifyEntitlements ec (specEntTransform ec resource resourceName entitlements)
          (specReqTransform ec resource resourceName requirements) := by
  unfold VerifyResourceEntitlements specEntTransform specReqTransform identityFor
  rcases requirements with _ | ⟨e, rest⟩ <;> simp

/-- C9: the spec promises a pure, total boolean decision for every
input, nil maps included, but the code panics: with a non-empty
anonymous-entitlement list and a nil entitlements map,
`VerifyEntitlements` executes `entitlements[ec.defaultScheme] =
append(...)` (entitlements.go line 123) on the nil clone — "assignment
to entry in nil map" — and `VerifyResourceEntitlements` does the same
at line 87 when grant-read-by-default is set.  In the nil-aware model
the panic is the `none` result. -/
theorem verify_nil_map_panics :
    GoNil.VerifyEntitlementsN ⟨["pages:read"], "bearer", false⟩ none
        [some [("bearer", ["pages"])]] = none ∧
      GoNil.VerifyResourceEntitlementsN ⟨[], "bearer", true⟩ "pages" "foo" none []
        = none := by
  decide

/-- C7, counterexample to the claim as stated: the claim says every
anonymous entitlement is appended exactly once per call with no
deduplication against the list's existing contents, so for configured
anonymous list `["a", "b"]` and working-copy default-scheme list `["a"]`
it predicts the result `["a"] ++ ["a", "b"]`; the code instead skips
the already-present `"a"` (the `slices.Contains` check of
entitlements.go line 114) and produces `["a", "b"]`. -/
theorem anonymous_dedup_counterexample :
    (augmentAnonymous ⟨["a", "b"], "bearer", false⟩ [("bearer", ["a"])]).lookup "bearer"
        = some ["a", "b"] ∧
      (["a", "b"] : List String) ≠ ["a"] ++ ["a", "b"] := by
  decide

/-- C7 amended: when the anonymous list is non-empty (and requirements
are non-empty, so the augmentation step runs), the default-scheme list
of the working copy is extended by appending, in order, each anonymous
entitlement not already present in the list built so far (deduplication
against existing contents and against in-call insertions); if none was
appended this way — the default-scheme key is absent, or every
anonymous entitlement already occurs in its list — the whole anonymous
list is appended verbatim instead, so an absent key is created holding
exactly the anonymous entitlements, while an already-covered list
receives duplicates. -/
theorem augmentAnonymous_defaultScheme_spec (ec : EntitlementsChecker) (m : EntMap)
    (hnd : (m.map Prod.fst).Nodup) :
    (augmentAnonymous ec m).lookup ec.defaultScheme =
      some (match m.lookup ec.defaultScheme with
        | none => ec.anonymousEntitlements
        | some l =>
          if ∃ a ∈ ec.anonymousEntitlements, a ∉ l then
            dedupAppend l ec.anonymousEntitlements
          else l ++ ec.anonymousEntitlements) := by
  unfold augmentAnonymous
  dsimp only
  cases hm : m.lookup ec.defaultScheme with
  | none =>
    rw [any_keyGuard_eq_false m ec.defaultScheme
      (fun l => (appendMissing ec.anonymousEntitlements l).2)
      (lookup_none_forall m ec.defaultScheme hm)]
    rw [if_neg (by simp), lookup_appendUnder, if_pos rfl,
      lookup_map_entryUpdate ec.defaultScheme
        (fun l => (appendMissing ec.anonymousEntitlements l).1), hm]
    rfl
  | some l =>
    rw [any_keyGuard_of_lookup m ec.defaultScheme l
      (fun l => (appendMissing ec.anonymousEntitlements l).2) hnd hm]
    rw [appendMissing_eq]
    by_cases hex : ∃ a ∈ ec.anonymousEntitlements, a ∉ l
    · rw [decide_eq_true hex, if_pos rfl,
        lookup_map_entryUpdate ec.defaultScheme
          (fun l => (appendMissing ec.anonymousEntitlements l).1), hm]
      simp [appendMissing_eq, hex]
    · rw [decide_eq_false hex, if_neg (by simp), lookup_appendUnder, if_pos rfl,
        lookup_map_entryUpdate ec.defaultScheme
          (fun l => (appendMissing ec.anonymousEntitlements l).1), hm]
      have hall : ∀ a ∈ ec.anonymousEntitlements, a ∈ l := by
        intro a ha
        by_contra hc
        exact hex ⟨a, ha, hc⟩
      simp [appendMissing_eq, dedupAppend_of_forall_mem _ _ hall, hex]

theorem augmentAnonymous_defaultScheme_spec_witness :
    (augmentAnonymous ⟨["a"], "bearer", false⟩ [("bearer", ["a"])]).lookup "bearer"
      = some (["a"] ++ ["a"]) :=
  (augmentAnonymous_defaultScheme_spec ⟨["a"], "bearer", false⟩
    [("bearer", ["a"])] (by decide)).trans (by decide)

theorem verifyEntitlements_empty_entry_true_witness :
    VerifyEntitlements ⟨["pages:read"], "bearer", true⟩ []
      [[("bearer", ["books:write"])], []] = true :=
  verifyEntitlements_empty_entry_true ⟨["pages:read"], "bearer", true⟩ []
    [[("bearer", ["books:write"])], []] (by decide)

end Entitlements
